import Mathlib

/-!
Verification of the ETL pipeline in `proyecto_final_ETL.py` (download of the
"colombianos detenidos en el exterior" dataset, cleaning, charting).

The script's tables are shallowly embedded: a pandas `DataFrame` becomes a
`Table` (ordered column names plus ordered rows of cells), a cell becomes a
`Value` (string as a list of Unicode code points, integer, date, or the
absent value `vnull` standing for `None`/`NaN`/`NaT`).  Each cleaning pass of
`limpiar_datos`, the paged fetcher `descargar_datos_completos`, and the chart
generator `generar_visualizaciones` are translated into executable Lean
functions, and the spec's properties are proved or refuted about them.
-/

set_option autoImplicit false

namespace ETL

/-- A Python string, modelled as its sequence of Unicode code points. -/
abbrev Str := List Nat

/-- Convenience: build a `Str` from a Lean string literal. -/
def strOf (s : String) : Str := s.data.map Char.toNat

/-- One cell of a DataFrame: a string, an integer, a timestamp (kept at
calendar-date precision, which is all the script produces), or the absent
value (`None` / `NaN` / `NaT`). -/
inductive Value : Type
  | vstr (s : Str)
  | vint (n : Int)
  | vdate (y m d : Nat)
  | vnull
  deriving DecidableEq, Repr

/-- A DataFrame row: the cell of each column, in column order. -/
abbrev Row := List Value

/-- A pandas DataFrame: ordered column names and ordered rows.  (pandas keeps
tables rectangular; rectangularity is carried as a hypothesis where a proof
needs it.) -/
structure Table where
  cols : List Str
  rows : List Row
  deriving DecidableEq, Repr

/-- A table is rectangular when every row has one cell per column. -/
def Rect (t : Table) : Prop := ∀ r ∈ t.rows, r.length = t.cols.length

/-- The values of column `i`, read off the rows (as `df[col]` does). -/
def colOf (rows : List Row) (i : Nat) : List Value :=
  rows.map (fun r => r.getD i Value.vnull)

/-- Write `vals` back into column `i` of the rows (as `df[col] = ...` does). -/
def setCol (i : Nat) (vals : List Value) (rows : List Row) : List Row :=
  (rows.zip vals).map (fun p => p.1.set i p.2)

/-! ### Encoding repair (`limpiar_datos`, first pass)

The script runs, for every object-dtype column,
`df[col] = df[col].apply(lambda x: x.encode('latin1').decode('utf-8') if isinstance(x, str) else x)`
inside a `try/except Exception: pass`.  `str.encode('latin1')` succeeds
exactly on code points below 256 and yields those bytes;
`bytes.decode('utf-8')` is strict UTF-8 decoding (overlong forms, surrogates
and values above U+10FFFF rejected).  An exception raised for any single
value aborts the whole column assignment. -/

/-- Is `b` a UTF-8 continuation byte? -/
def isCont (b : Nat) : Bool := 0x80 ≤ b && b ≤ 0xBF

/-- Strict UTF-8 decoding of a byte sequence, as `bytes.decode('utf-8')`:
rejects stray continuation bytes, truncated sequences, overlong encodings,
surrogate code points and values above U+10FFFF. -/
def utf8Decode : List Nat → Option (List Nat)
  | [] => some []
  | b :: rest =>
    if b ≤ 0x7F then (utf8Decode rest).map (fun cs => b :: cs)
    else if 0xC2 ≤ b && b ≤ 0xDF then
      match rest with
      | b2 :: rest2 =>
        if isCont b2 then
          (utf8Decode rest2).map (fun cs => ((b - 0xC0) * 64 + (b2 - 0x80)) :: cs)
        else none
      | [] => none
    else if 0xE0 ≤ b && b ≤ 0xEF then
      match rest with
      | b2 :: b3 :: rest3 =>
        if (if b = 0xE0 then 0xA0 ≤ b2 && b2 ≤ 0xBF
            else if b = 0xED then 0x80 ≤ b2 && b2 ≤ 0x9F
            else isCont b2) && isCont b3 then
          (utf8Decode rest3).map
            (fun cs => ((b - 0xE0) * 4096 + (b2 - 0x80) * 64 + (b3 - 0x80)) :: cs)
        else none
      | _ => none
    else if 0xF0 ≤ b && b ≤ 0xF4 then
      match rest with
      | b2 :: b3 :: b4 :: rest4 =>
        if (if b = 0xF0 then 0x90 ≤ b2 && b2 ≤ 0xBF
            else if b = 0xF4 then 0x80 ≤ b2 && b2 ≤ 0x8F
            else isCont b2) && isCont b3 && isCont b4 then
          (utf8Decode rest4).map
            (fun cs =>
              ((b - 0xF0) * 262144 + (b2 - 0x80) * 4096 + (b3 - 0x80) * 64 + (b4 - 0x80)) :: cs)
        else none
      | _ => none
    else none

/-- Python `str.encode('latin1')`: succeeds iff every code point is below 256, in
which case the byte sequence equals the code-point sequence. -/
def encodeLatin1 (s : Str) : Option (List Nat) :=
  if s.all (fun c => c < 256) then some s else none

/-- The per-value body of the repair lambda: on a string, re-encode as
latin-1 and re-decode as UTF-8 (`none` = the lambda raises); any non-string
value is returned unchanged. -/
def repairValue : Value → Option Value
  | Value.vstr s =>
    match encodeLatin1 s with
    | none => none
    | some bs =>
      match utf8Decode bs with
      | none => none
      | some cs => some (Value.vstr cs)
  | v => some v

/-- Is the value a string? -/
def isStrVal : Value → Bool
  | Value.vstr _ => true
  | _ => false

/-- Does `select_dtypes(include='object')` pick this column?  Modelled as:
every value is a string or absent, and at least one is a string. -/
def isObjectCol (col : List Value) : Bool :=
  col.all (fun v => isStrVal v || v = Value.vnull) && col.any isStrVal

/-- Process one column of the encoding-repair loop: if the column is
object-dtype, apply the repair lambda to every value; if any value raises
(`mapM` returns `none`), the `except: pass` leaves the rows untouched. -/
def fixStep (rows : List Row) (i : Nat) : List Row :=
  if isObjectCol (colOf rows i) then
    match (colOf rows i).mapM repairValue with
    | some col2 => setCol i col2 rows
    | none => rows
  else rows

/-- The whole encoding-repair pass: the per-column loop over all columns. -/
def fixEncoding (t : Table) : Table :=
  { t with rows := (List.range t.cols.length).foldl fixStep t.rows }

/-! ### Row pruning and sentinel replacement (`limpiar_datos`, middle passes) -/

/-- Is every cell of the row absent?  (`dropna(how='all')` drops such rows.) -/
def rowAllNull (r : Row) : Bool := r.all (fun v => v = Value.vnull)

/-- Pandas `df.dropna(how='all')`: keep the rows having some non-absent cell. -/
def dropnaAll (rows : List Row) : List Row := rows.filter (fun r => !rowAllNull r)

/-- Deduplication keeping the first occurrence, with an accumulator of the
row values already emitted (`df.drop_duplicates()` keeps the first). -/
def dedupAux {α : Type} [DecidableEq α] (seen : List α) : List α → List α
  | [] => []
  | r :: rs => if r ∈ seen then dedupAux seen rs else r :: dedupAux (r :: seen) rs

/-- Pandas `df.drop_duplicates()`: drop every row equal to an earlier row. -/
def dropDuplicates (rows : List Row) : List Row := dedupAux [] rows

/-- The code points of the sentinel `N/A`. -/
def strNA : Str := [78, 47, 65]

/-- The code points of the sentinel `n/a`. -/
def strNa : Str := [110, 47, 97]

/-- The per-value effect of `df.replace(...)` with the script's dict: the
strings `N/A`, `n/a` and the empty string become absent. -/
def replaceSentinel (v : Value) : Value :=
  if v = Value.vstr strNA ∨ v = Value.vstr strNa ∨ v = Value.vstr [] then Value.vnull else v

/-- Sentinel replacement over all cells of all rows. -/
def replaceTable (rows : List Row) : List Row := rows.map (fun r => r.map replaceSentinel)

/-! ### Column-name normalization (`normalizar_columna`) -/

/-- NFKD decompositions of the Latin-1 accented letters (the alphabet this
dataset's headers draw on).  Each entry maps a precomposed letter to its base
letter followed by a combining mark. -/
def nfkdTable : List (Nat × List Nat) :=
  [(0xC0, [65, 0x300]), (0xC1, [65, 0x301]), (0xC2, [65, 0x302]), (0xC3, [65, 0x303]),
   (0xC4, [65, 0x308]), (0xC5, [65, 0x30A]), (0xC7, [67, 0x327]),
   (0xC8, [69, 0x300]), (0xC9, [69, 0x301]), (0xCA, [69, 0x302]), (0xCB, [69, 0x308]),
   (0xCC, [73, 0x300]), (0xCD, [73, 0x301]), (0xCE, [73, 0x302]), (0xCF, [73, 0x308]),
   (0xD1, [78, 0x303]),
   (0xD2, [79, 0x300]), (0xD3, [79, 0x301]), (0xD4, [79, 0x302]), (0xD5, [79, 0x303]),
   (0xD6, [79, 0x308]),
   (0xD9, [85, 0x300]), (0xDA, [85, 0x301]), (0xDB, [85, 0x302]), (0xDC, [85, 0x308]),
   (0xDD, [89, 0x301]),
   (0xE0, [97, 0x300]), (0xE1, [97, 0x301]), (0xE2, [97, 0x302]), (0xE3, [97, 0x303]),
   (0xE4, [97, 0x308]), (0xE5, [97, 0x30A]), (0xE7, [99, 0x327]),
   (0xE8, [101, 0x300]), (0xE9, [101, 0x301]), (0xEA, [101, 0x302]), (0xEB, [101, 0x308]),
   (0xEC, [105, 0x300]), (0xED, [105, 0x301]), (0xEE, [105, 0x302]), (0xEF, [105, 0x308]),
   (0xF1, [110, 0x303]),
   (0xF2, [111, 0x300]), (0xF3, [111, 0x301]), (0xF4, [111, 0x302]), (0xF5, [111, 0x303]),
   (0xF6, [111, 0x308]),
   (0xF9, [117, 0x300]), (0xFA, [117, 0x301]), (0xFB, [117, 0x302]), (0xFC, [117, 0x308]),
   (0xFD, [121, 0x301]), (0xFF, [121, 0x308])]

/-- Python `unicodedata.normalize('NFKD', ...)` per code point, restricted to the
Latin-1 range this pipeline meets; code points without an entry (all ASCII
among them) are returned undecomposed, as in Unicode. -/
def nfkdChar (c : Nat) : List Nat :=
  match nfkdTable.lookup c with
  | some d => d
  | none => [c]

/-- Python `unicodedata.combining(c) != 0`, restricted to the combining diacritical
marks block the table above produces. -/
def combiningChar (c : Nat) : Bool := 0x300 ≤ c && c ≤ 0x36F

/-- Python `str.lower()` per code point, on the ASCII and Latin-1 letters. -/
def lowerChar (c : Nat) : Nat :=
  if 65 ≤ c && c ≤ 90 then c + 32
  else if 0xC0 ≤ c && c ≤ 0xDE && c ≠ 0xD7 then c + 32
  else c

/-- Is `c` one of the whitespace code points `str.strip()` removes? -/
def isSpaceChar (c : Nat) : Bool :=
  c = 32 || c = 9 || c = 10 || c = 11 || c = 12 || c = 13

/-- Python `str.strip()`: drop whitespace from both ends. -/
def pyStrip (s : Str) : Str :=
  ((s.dropWhile isSpaceChar).reverse.dropWhile isSpaceChar).reverse

/-- The header normalizer `normalizar_columna`: NFKD-decompose, drop combining marks, lowercase,
strip surrounding whitespace, replace remaining spaces with underscores. -/
def normalizar_columna (nombre : Str) : Str :=
  let nfkd_form := nombre.flatMap nfkdChar
  let solo_ascii := nfkd_form.filter (fun c => !combiningChar c)
  (pyStrip (solo_ascii.map lowerChar)).map (fun c => if c = 32 then 95 else c)

/-! ### Date derivation (`limpiar_datos`, last pass) -/

/-- Is `c` an ASCII digit? -/
def isDigitChar (c : Nat) : Bool := 48 ≤ c && c ≤ 57

/-- The numeric value of an ASCII digit. -/
def digitVal (c : Nat) : Nat := c - 48

/-- Gregorian leap-year rule. -/
def isLeap (y : Nat) : Bool := (y % 4 = 0 && y % 100 ≠ 0) || y % 400 = 0

/-- Days in a month of the Gregorian calendar. -/
def daysInMonth (y m : Nat) : Nat :=
  if m = 2 then (if isLeap y then 29 else 28)
  else if m = 4 || m = 6 || m = 9 || m = 11 then 30
  else 31

/-- Parse an ISO `YYYY-MM-DD` string into (year, month, day), checking
calendar validity. -/
def parseISO : Str → Option (Nat × Nat × Nat)
  | [y1, y2, y3, y4, h1, m1, m2, h2, d1, d2] =>
    if h1 = 45 && h2 = 45 && [y1, y2, y3, y4, m1, m2, d1, d2].all isDigitChar then
      let y := digitVal y1 * 1000 + digitVal y2 * 100 + digitVal y3 * 10 + digitVal y4
      let m := digitVal m1 * 10 + digitVal m2
      let d := digitVal d1 * 10 + digitVal d2
      if 1 ≤ m && m ≤ 12 && 1 ≤ d && d ≤ daysInMonth y m then some (y, m, d) else none
    else none
  | _ => none

/-- Pandas `pd.to_datetime(x, errors='coerce')` per value, on the shapes this
dataset holds: ISO date strings parse to dates, existing dates stay, and
everything unparseable (the absent value included) coerces to `NaT`. -/
def toDatetimeVal : Value → Value
  | Value.vstr s =>
    match parseISO s with
    | some (y, m, d) => Value.vdate y m d
    | none => Value.vnull
  | Value.vdate y m d => Value.vdate y m d
  | _ => Value.vnull

/-- The `meses` dictionary of the script: month number to Spanish name. -/
def meses : List (Nat × Str) :=
  [(1, strOf "enero"), (2, strOf "febrero"), (3, strOf "marzo"), (4, strOf "abril"),
   (5, strOf "mayo"), (6, strOf "junio"), (7, strOf "julio"), (8, strOf "agosto"),
   (9, strOf "septiembre"), (10, strOf "octubre"), (11, strOf "noviembre"),
   (12, strOf "diciembre")]

/-- Look up a month name (months 1 to 12 are always present where used). -/
def mesName (m : Nat) : Str := (meses.lookup m).getD []

/-- The decimal digits of a natural number, as code points. -/
def natStr (n : Nat) : Str := (Nat.toDigits 10 n).map Char.toNat

/-- The `fecha_texto` lambda: a parsed date renders as
`<day> de <month-name> de <year>`; anything else gives `None`. -/
def fechaTexto : Value → Value
  | Value.vdate y m d =>
    Value.vstr (natStr d ++ strOf " de " ++ mesName m ++ strOf " de " ++ natStr y)
  | _ => Value.vnull

/-- The normalized publication-date column name. -/
def fechaPublicacion : Str := strOf "fecha_publicacion"

/-- The date-derivation pass: when a `fecha_publicacion` column exists,
coerce it with `to_datetime` and append a `fecha_texto` column rendered from
the coerced value of the same row. -/
def dateDerive (t : Table) : Table :=
  if fechaPublicacion ∈ t.cols then
    let i := t.cols.findIdx (fun c => c = fechaPublicacion)
    { cols := t.cols ++ [strOf "fecha_texto"],
      rows := t.rows.map (fun r =>
        let coerced := toDatetimeVal (r.getD i Value.vnull)
        (r.set i coerced) ++ [fechaTexto coerced]) }
  else t

/-! ### The whole cleaning pipeline -/

/-- Rename all columns through `normalizar_columna` (pandas keeps duplicate
labels as distinct columns, so this is a pure rename). -/
def renameCols (t : Table) : Table := { t with cols := t.cols.map normalizar_columna }

/-- The rows after the pruning passes: encoding repair, then
`dropna(how='all')`, then `drop_duplicates()` — and before sentinel
replacement. -/
def prunedRows (t : Table) : List Row := dropDuplicates (dropnaAll (fixEncoding t).rows)

/-- The cleaner `limpiar_datos`: the five passes in script order — encoding repair, row
pruning, sentinel replacement, column-name normalization, date derivation. -/
def limpiar_datos (t : Table) : Table :=
  dateDerive (renameCols { cols := t.cols, rows := replaceTable (prunedRows t) })

/-! ### Paged fetcher (`descargar_datos_completos`)

The loop requests pages in order; a non-200 status or an empty page breaks
the loop; afterwards `pd.concat(all_data)` raises `ValueError` when no page
was accumulated.  The environment's successive responses are modelled as a
list consumed in order. -/

/-- One HTTP page response: the status code and the rows parsed from the
body. -/
structure Page where
  status : Nat
  rows : List Row
  deriving DecidableEq, Repr

/-- The accumulation loop: collect each page's rows until a non-200 status
or an empty page stops the iteration. -/
def fetchLoop : List Page → List (List Row)
  | [] => []
  | p :: ps =>
    if p.status ≠ 200 then []
    else if p.rows = [] then []
    else p.rows :: fetchLoop ps

/-- The fetcher `descargar_datos_completos` over a response sequence: run the loop, then
concatenate; `pd.concat` of an empty list raises (`Except.error`). -/
def descargar_datos_completos (pages : List Page) : Except String (List Row) :=
  let all_data := fetchLoop pages
  if all_data = [] then Except.error "No objects to concatenate"
  else Except.ok all_data.flatten

/-! ### Chart generator (`generar_visualizaciones`)

The function optionally replaces `df` by a fixed-seed 30000-row sample, then
derives three aggregates (top-10 country counts, gender counts, cases per
year).  `DataFrame.sample(n, random_state=42)` is modelled as a
seed-determined permutation truncated to `n` rows.  The third chart block
assigns `df['fecha_publicacion']` and `df['anio']` in place; when no sample
copy was taken, these writes land on the caller's table, so the caller-visible
post-state is modelled explicitly. -/

/-- Pandas `DataFrame.sample(n, random_state=seed)`: a deterministic seed-driven
selection of `n` rows (modelled as a seed-determined rotation truncated to
`n`). -/
def sampleSeeded (n seed : Nat) (rows : List Row) : List Row :=
  (rows.rotate (seed % rows.length)).take n

/-- The rows the three chart blocks actually see: the fixed-seed 30000-row
sample when fast mode is on and the table exceeds 50000 rows, the full rows
otherwise. -/
def vizRows (rows : List Row) (rapido : Bool) : List Row :=
  if rapido = true ∧ 50000 < rows.length then sampleSeeded 30000 42 rows else rows

/-- The column of name `name`, or `[]` when absent. -/
def colByName (t : Table) (name : Str) : List Value :=
  if name ∈ t.cols then colOf t.rows (t.cols.findIdx (fun c => c = name)) else []

/-- Pandas `Series.value_counts()`: occurrence counts of the distinct non-absent
values, sorted by descending count. -/
def valueCounts (col : List Value) : List (Value × Nat) :=
  let nn := col.filter (fun v => v ≠ Value.vnull)
  ((dedupAux [] nn).map (fun v => (v, nn.count v))).mergeSort (fun a b => b.2 ≤ a.2)

/-- The year of a coerced date value (`Series.dt.year`; `NaT` gives `NaN`). -/
def yearOf : Value → Value
  | Value.vdate y _ _ => Value.vint (Int.ofNat y)
  | _ => Value.vnull

/-- The pais column name. -/
def paisCol : Str := strOf "pais"

/-- The genero column name. -/
def generoCol : Str := strOf "genero"

/-- The top-10 country bar-chart data from the rows a chart block sees:
`none` when the column is missing or its counts are empty (chart skipped). -/
def topPaisesChart (t : Table) (used : List Row) : Option (List (Value × Nat)) :=
  if paisCol ∈ t.cols then
    let vc := valueCounts (colOf used (t.cols.findIdx (fun c => c = paisCol)))
    if vc = [] then none else some (vc.take 10)
  else none

/-- The gender pie-chart data, `none` when missing or empty. -/
def generoChart (t : Table) (used : List Row) : Option (List (Value × Nat)) :=
  if generoCol ∈ t.cols then
    let vc := valueCounts (colOf used (t.cols.findIdx (fun c => c = generoCol)))
    if vc = [] then none else some vc
  else none

/-- The yearly line-chart data: coerce the date column of the rows the block
sees, keep the year counts sorted ascending by year; `none` when the column
is missing or holds no valid date. -/
def anualChart (t : Table) (used : List Row) : Option (List (Value × Nat)) :=
  if fechaPublicacion ∈ t.cols then
    let coerced := (colOf used (t.cols.findIdx (fun c => c = fechaPublicacion))).map toDatetimeVal
    if coerced.any (fun v => v ≠ Value.vnull) then
      some ((valueCounts (coerced.map yearOf)).mergeSort
        (fun a b => match a.1, b.1 with
          | Value.vint x, Value.vint y => x ≤ y
          | _, _ => true))
    else none
  else none

/-- The three aggregates a run of `generar_visualizaciones` renders. -/
structure ChartOutputs where
  topPaises : Option (List (Value × Nat))
  genero : Option (List (Value × Nat))
  anual : Option (List (Value × Nat))
  deriving DecidableEq, Repr

/-- The chart generator `generar_visualizaciones`, data view: one optional sampling step, then
the three chart blocks all reading the same resulting rows. -/
def generar_visualizaciones (t : Table) (rapido : Bool) : ChartOutputs :=
  let used := vizRows t.rows rapido
  { topPaises := topPaisesChart t used
    genero := generoChart t used
    anual := anualChart t used }

/-- The caller's table as the third chart block leaves it when the block ran
on the caller's own object: `df['fecha_publicacion']` is overwritten with
the coerced dates, and `df['anio']` is appended when some date is valid. -/
def chart3Mutate (t : Table) : Table :=
  if fechaPublicacion ∈ t.cols then
    let i := t.cols.findIdx (fun c => c = fechaPublicacion)
    let coerced := (colOf t.rows i).map toDatetimeVal
    let t2 : Table := { t with rows := setCol i coerced t.rows }
    if coerced.any (fun v => v ≠ Value.vnull) then
      { cols := t2.cols ++ [strOf "anio"],
        rows := (t2.rows.zip (coerced.map yearOf)).map (fun p => p.1 ++ [p.2]) }
    else t2
  else t

/-- The caller-visible state of the table after `generar_visualizaciones`
returns: untouched when sampling substituted a copy, otherwise mutated by
the third chart block's in-place column writes. -/
def generarPost (t : Table) (rapido : Bool) : Table :=
  if rapido = true ∧ 50000 < t.rows.length then t else chart3Mutate t

/-! ### Derived notions used by the statements -/

/-- What the repair loop does to one column, in isolation: an object column
is repaired value by value, but any failing value makes the `except` clause
keep the whole column; a non-object column is untouched. -/
def fixCol (col : List Value) : List Value :=
  if isObjectCol col then
    match col.mapM repairValue with
    | some col2 => col2
    | none => col
  else col

/-- A lowercase ASCII letter, an ASCII digit, or an underscore — the
alphabet the spec promises for normalized column names. -/
def asciiIdentChar (c : Nat) : Bool :=
  (97 ≤ c && c ≤ 122) || (48 ≤ c && c ≤ 57) || c = 95

/-- The precomposed accented letters the NFKD table decomposes. -/
def accentedLatin : List Nat := nfkdTable.map Prod.fst

/-- A raw header code point on which `normalizar_columna` is guaranteed to
produce the promised alphabet: ASCII letters, digits, underscore, space, or
a decomposable accented Latin letter. -/
def benignHeaderChar (c : Nat) : Bool :=
  (65 ≤ c && c ≤ 90) || (97 ≤ c && c ≤ 122) || (48 ≤ c && c ≤ 57) || c = 95 || c = 32 ||
  decide (c ∈ accentedLatin)

/-- Stage alphabet: ASCII letters, digits, underscore, space — what survives
NFKD decomposition plus combining-mark removal on benign input. -/
def baseHeaderChar (c : Nat) : Bool :=
  (65 ≤ c && c ≤ 90) || (97 ≤ c && c ≤ 122) || (48 ≤ c && c ≤ 57) || c = 95 || c = 32

/-- Stage alphabet after lowercasing: lowercase letters, digits, underscore,
space. -/
def lowerSpaceChar (c : Nat) : Bool :=
  (97 ≤ c && c ≤ 122) || (48 ≤ c && c ≤ 57) || c = 95 || c = 32

end ETL

namespace ETL

/-! ## Helper lemmas -/

theorem replaceSentinel_idem (v : Value) :
    replaceSentinel (replaceSentinel v) = replaceSentinel v := by
  by_cases h : v = Value.vstr strNA ∨ v = Value.vstr strNa ∨ v = Value.vstr [] <;>
    simp [replaceSentinel, h]

theorem dedupAux_subset {α : Type} [DecidableEq α] (seen : List α) (l : List α) :
    ∀ x ∈ dedupAux seen l, x ∈ l := by
  induction l generalizing seen with
  | nil => intro x hx; exact absurd hx (by simp [dedupAux])
  | cons r rs ih =>
    intro x hx
    by_cases hr : r ∈ seen
    · simp only [dedupAux, if_pos hr] at hx
      exact List.mem_cons_of_mem r (ih seen x hx)
    · simp only [dedupAux, if_neg hr, List.mem_cons] at hx
      rcases hx with hx | hx
      · exact hx ▸ List.mem_cons_self r rs
      · exact List.mem_cons_of_mem r (ih (r :: seen) x hx)

theorem dedupAux_not_mem_seen {α : Type} [DecidableEq α] (seen : List α) (l : List α) :
    ∀ x ∈ dedupAux seen l, x ∉ seen := by
  induction l generalizing seen with
  | nil => intro x hx; exact absurd hx (by simp [dedupAux])
  | cons r rs ih =>
    intro x hx
    by_cases hr : r ∈ seen
    · simp only [dedupAux, if_pos hr] at hx
      exact ih seen x hx
    · simp only [dedupAux, if_neg hr, List.mem_cons] at hx
      rcases hx with hx | hx
      · exact hx ▸ hr
      · intro hs
        exact ih (r :: seen) x hx (List.mem_cons_of_mem r hs)

theorem dedupAux_nodup {α : Type} [DecidableEq α] (seen : List α) (l : List α) :
    (dedupAux seen l).Nodup := by
  induction l generalizing seen with
  | nil => simp [dedupAux]
  | cons r rs ih =>
    by_cases hr : r ∈ seen
    · simpa [dedupAux, hr] using ih seen
    · simp only [dedupAux, if_neg hr]
      refine List.nodup_cons.2 ⟨?_, ih (r :: seen)⟩
      intro hmem
      exact dedupAux_not_mem_seen (r :: seen) rs r hmem (List.mem_cons_self r seen)

theorem dedupAux_sublist {α : Type} [DecidableEq α] (seen : List α) (l : List α) :
    (dedupAux seen l).Sublist l := by
  induction l generalizing seen with
  | nil => simp [dedupAux]
  | cons r rs ih =>
    by_cases hr : r ∈ seen
    · simp only [dedupAux, if_pos hr]
      exact (ih seen).trans (List.sublist_cons_self r rs)
    · simp only [dedupAux, if_neg hr]
      exact (ih (r :: seen)).cons₂ r

/-! ## C9: idempotence of sentinel normalization -/

/-- C9: sentinel normalization is idempotent — applying the pass that turns
`N/A`, `n/a` and the empty string into the absent value twice yields the
same table as applying it once. -/
theorem replace_sentinel_idempotent (rows : List Row) :
    replaceTable (replaceTable rows) = replaceTable rows := by
  simp [replaceTable, List.map_map, Function.comp_def, replaceSentinel_idem]

/-! ## C6: the paged fetcher on a failing page -/

theorem fetchLoop_ok_until_bad (goods : List Page) (bad : Page) (rest : List Page)
    (hg : ∀ p ∈ goods, p.status = 200 ∧ p.rows ≠ []) (hbad : bad.status ≠ 200) :
    fetchLoop (goods ++ bad :: rest) = goods.map Page.rows := by
  induction goods with
  | nil => simp [fetchLoop, hbad]
  | cons g gs ih =>
    have hgood := hg g (List.mem_cons_self g gs)
    have ih2 := ih fun p hp => hg p (List.mem_cons_of_mem g hp)
    simp [fetchLoop, hgood.1, hgood.2, ih2]

/-- C6 (amended): when at least one page was retrieved before the failing
request, a non-success status halts pagination and the fetcher returns the
concatenation of the pages accumulated so far, with no error. -/
theorem descargar_halts_with_partial_data (goods : List Page) (bad : Page)
    (rest : List Page) (hg : ∀ p ∈ goods, p.status = 200 ∧ p.rows ≠ [])
    (hne : goods ≠ []) (hbad : bad.status ≠ 200) :
    descargar_datos_completos (goods ++ bad :: rest) =
      Except.ok (goods.map Page.rows).flatten := by
  unfold descargar_datos_completos
  rw [fetchLoop_ok_until_bad goods bad rest hg hbad]
  rw [if_neg]
  simpa using hne

/-- C6 witness: page 3 of 5 returns HTTP 500, so the raw table is exactly
the rows of pages 1 and 2. -/
theorem descargar_halts_with_partial_data_witness :
    descargar_datos_completos
      [⟨200, [[Value.vint 1]]⟩, ⟨200, [[Value.vint 2]]⟩, ⟨500, [[Value.vint 3]]⟩,
       ⟨200, [[Value.vint 4]]⟩, ⟨200, [[Value.vint 5]]⟩] =
      Except.ok [[Value.vint 1], [Value.vint 2]] := by
  have h := descargar_halts_with_partial_data
    [⟨200, [[Value.vint 1]]⟩, ⟨200, [[Value.vint 2]]⟩] ⟨500, [[Value.vint 3]]⟩
    [⟨200, [[Value.vint 4]]⟩, ⟨200, [[Value.vint 5]]⟩]
    (by decide) (by decide) (by decide)
  simpa using h

/-- C6 counterexample: when the very first page request fails, nothing has
been accumulated and the concatenation step itself raises (`pd.concat` of an
empty list), contradicting the claim that a non-success status never
produces an error. -/
theorem descargar_error_on_first_page_failure :
    descargar_datos_completos [⟨500, [[Value.vint 1]]⟩] =
      Except.error "No objects to concatenate" := rfl

/-! ## C2: no fully-empty output rows -/

/-- C2 counterexample: a row holding only the sentinel `N/A` survives the
pruning passes (it is not literally empty there) and becomes entirely absent
after sentinel normalization, so the cleaned table does contain a fully
empty row. -/
theorem clean_can_emit_all_empty_row :
    (limpiar_datos { cols := [[99]], rows := [[Value.vstr [120]], [Value.vstr strNA]] }).rows =
      [[Value.vstr [120]], [Value.vnull]] ∧
    rowAllNull
      ((limpiar_datos
          { cols := [[99]], rows := [[Value.vstr [120]], [Value.vstr strNA]] }).rows.getD 1 []) =
      true := by decide

/-- C2 (amended): every row of the pruned table — after empty-row removal
and deduplication, before sentinel normalization — has at least one
non-absent field; a row whose non-absent fields are all sentinels may still
end up entirely absent in the final output. -/
theorem pruned_rows_have_nonnull_field (t : Table) :
    ∀ r ∈ prunedRows t, rowAllNull r = false := by
  intro r hr
  have h1 : r ∈ (fixEncoding t).rows.filter (fun r => !rowAllNull r) :=
    dedupAux_subset [] (dropnaAll (fixEncoding t).rows) r hr
  have h2 := (List.mem_filter.1 h1).2
  simpa using h2

/-- C2 witness: a concrete pruned row with a non-absent field. -/
theorem pruned_rows_have_nonnull_field_witness :
    [Value.vstr [120]] ∈ prunedRows { cols := [[99]], rows := [[Value.vstr [120]]] } ∧
    rowAllNull [Value.vstr [120]] = false :=
  ⟨by decide,
   pruned_rows_have_nonnull_field { cols := [[99]], rows := [[Value.vstr [120]]] }
     [Value.vstr [120]] (by decide)⟩

/-! ## C3: no duplicate output rows -/

/-- C3 counterexample: the rows `[N/A]` and `[n/a]` are distinct when
deduplication runs, and sentinel normalization afterwards collapses both to
the all-absent row, so the cleaned table holds two field-wise identical rows
at distinct indices. -/
theorem clean_can_emit_duplicate_rows :
    (limpiar_datos { cols := [[99]], rows := [[Value.vstr strNA], [Value.vstr strNa]] }).rows =
      [[Value.vnull], [Value.vnull]] ∧
    (limpiar_datos { cols := [[99]], rows := [[Value.vstr strNA], [Value.vstr strNa]] }).rows.getD
        0 [] =
      (limpiar_datos
          { cols := [[99]], rows := [[Value.vstr strNA], [Value.vstr strNa]] }).rows.getD
        1 [] := by decide

/-- C3 (amended): the rows of the pruned table — where deduplication runs,
before sentinel normalization — are pairwise distinct; rows distinct only by
their sentinel spelling may collapse to identical rows afterwards. -/
theorem pruned_rows_nodup (t : Table) : (prunedRows t).Nodup :=
  dedupAux_nodup [] (dropnaAll (fixEncoding t).rows)

/-! ## C1: granularity of the encoding repair -/

/-- C1 counterexample: in a column holding one repairable value and one
value whose re-decoding fails, the failing value aborts the whole column
assignment (`except: pass`), so even the repairable value stays unchanged —
repair is not applied independently per value and no mixed column arises. -/
theorem encoding_repair_not_per_value :
    repairValue (Value.vstr [0xC3, 0xA9]) = some (Value.vstr [0xE9]) ∧
    repairValue (Value.vstr [0xFF]) = none ∧
    (fixEncoding
        { cols := [[99]], rows := [[Value.vstr [0xC3, 0xA9]], [Value.vstr [0xFF]]] }).rows =
      [[Value.vstr [0xC3, 0xA9]], [Value.vstr [0xFF]]] := by decide

/-! ## C8: the chart generator and its input table -/

/-- C8 counterexample: on a small table with a `fecha_publicacion` column,
the third chart block overwrites that column with coerced dates and appends
an `anio` column in place, so the caller's table is changed after chart
generation returns. -/
theorem generar_mutates_caller_table :
    generarPost { cols := [fechaPublicacion], rows := [[Value.vstr (strOf "2021-03-15")]] }
        true =
      { cols := [fechaPublicacion, strOf "anio"],
        rows := [[Value.vdate 2021 3 15, Value.vint 2021]] } ∧
    generarPost { cols := [fechaPublicacion], rows := [[Value.vstr (strOf "2021-03-15")]] }
        true ≠
      { cols := [fechaPublicacion], rows := [[Value.vstr (strOf "2021-03-15")]] } := by decide

/-- C8 (amended): chart generation leaves the caller's table unchanged when
the table has no `fecha_publicacion` column, and also when fast-mode
sampling replaced the table by a copy; otherwise the date column is coerced
in place and an `anio` column may be appended. -/
theorem generar_preserves_table_without_date_col (t : Table) (rapido : Bool) :
    (fechaPublicacion ∉ t.cols → generarPost t rapido = t) ∧
    (rapido = true ∧ 50000 < t.rows.length → generarPost t rapido = t) := by
  constructor
  · intro hfp
    simp [generarPost, chart3Mutate, hfp]
  · intro hs
    unfold generarPost
    rw [if_pos hs]

/-- C8 witness: a concrete table without the date column is returned
untouched. -/
theorem generar_preserves_table_without_date_col_witness :
    fechaPublicacion ∉ ({ cols := [[99]], rows := [[Value.vint 1]] } : Table).cols ∧
    generarPost { cols := [[99]], rows := [[Value.vint 1]] } true =
      { cols := [[99]], rows := [[Value.vint 1]] } :=
  ⟨by decide, (generar_preserves_table_without_date_col _ true).1 (by decide)⟩

/-! ## C5: alphabet of normalized column names -/

/-- C5 counterexample: `normalizar_columna` never removes punctuation, so a
raw name holding a hyphen normalizes to itself and the result is not made of
lowercase ASCII letters, digits and underscores only. -/
theorem normalizar_columna_not_ascii :
    normalizar_columna (strOf "a-b") = strOf "a-b" ∧
    (normalizar_columna (strOf "a-b")).all asciiIdentChar = false := by decide

/-! ## C7: fast-mode sampling -/

/-- C7: when fast mode is on and the table exceeds 50000 rows, the rows the
chart blocks see are a single fixed-seed sample of exactly 30000 rows, and
all three chart aggregates are computed from that same sample; otherwise the
full rows are used. -/
theorem fast_mode_sample_shared (t : Table) (rapido : Bool) :
    (rapido = true ∧ 50000 < t.rows.length →
      (vizRows t.rows rapido).length = 30000 ∧
      generar_visualizaciones t rapido =
        { topPaises := topPaisesChart t (vizRows t.rows rapido)
          genero := generoChart t (vizRows t.rows rapido)
          anual := anualChart t (vizRows t.rows rapido) }) ∧
    (¬(rapido = true ∧ 50000 < t.rows.length) → vizRows t.rows rapido = t.rows) := by
  constructor
  · intro hs
    refine ⟨?_, rfl⟩
    unfold vizRows
    rw [if_pos hs]
    unfold sampleSeeded
    simp only [List.length_take, List.length_rotate]
    omega
  · intro hs
    unfold vizRows
    rw [if_neg hs]

/-- C7 witness: a 50001-row table in fast mode. -/
theorem fast_mode_sample_shared_witness :
    (vizRows (List.replicate 50001 ([Value.vnull] : Row)) true).length = 30000 ∧
    generar_visualizaciones { cols := [], rows := List.replicate 50001 [Value.vnull] } true =
      { topPaises := topPaisesChart { cols := [], rows := List.replicate 50001 [Value.vnull] }
          (vizRows (List.replicate 50001 [Value.vnull]) true)
        genero := generoChart { cols := [], rows := List.replicate 50001 [Value.vnull] }
          (vizRows (List.replicate 50001 [Value.vnull]) true)
        anual := anualChart { cols := [], rows := List.replicate 50001 [Value.vnull] }
          (vizRows (List.replicate 50001 [Value.vnull]) true) } :=
  (fast_mode_sample_shared { cols := [], rows := List.replicate 50001 [Value.vnull] } true).1
    ⟨rfl, by rw [List.length_replicate]; omega⟩

/-! ## C4: date derivation and its companion text -/

theorem toDatetimeVal_shape (v : Value) :
    (∃ y m d, toDatetimeVal v = Value.vdate y m d) ∨ toDatetimeVal v = Value.vnull := by
  cases v with
  | vstr s =>
    cases h : parseISO s with
    | none =>
      right
      simp [toDatetimeVal, h]
    | some p =>
      obtain ⟨y, m, d⟩ := p
      left
      exact ⟨y, m, d, by simp [toDatetimeVal, h]⟩
  | vint n => right; rfl
  | vdate y m d => left; exact ⟨y, m, d, rfl⟩
  | vnull => right; rfl

theorem fechaTexto_contains_year (y m d : Nat) :
    ∃ pre post, fechaTexto (Value.vdate y m d) = Value.vstr (pre ++ natStr y ++ post) :=
  ⟨natStr d ++ strOf " de " ++ mesName m ++ strOf " de ", [],
    by simp [fechaTexto, List.append_assoc]⟩

/-- C4: the raw date `2021-03-15` yields the parsed date 2021-03-15 with
companion text `15 de marzo de 2021`; and in every row of the derived table
the companion field is a string containing the date's year as a decimal
substring exactly when the date field is a parsed date, and is absent when
the date field is absent. -/
theorem date_companion_consistency :
    (dateDerive { cols := [fechaPublicacion], rows := [[Value.vstr (strOf "2021-03-15")]] } =
      { cols := [fechaPublicacion, strOf "fecha_texto"],
        rows := [[Value.vdate 2021 3 15, Value.vstr (strOf "15 de marzo de 2021")]] }) ∧
    ∀ t : Table, Rect t → fechaPublicacion ∈ t.cols →
      ∀ r2 ∈ (dateDerive t).rows,
        (∃ y m d pre post,
          r2.getD (t.cols.findIdx fun c => c = fechaPublicacion) Value.vnull =
            Value.vdate y m d ∧
          r2.getD t.cols.length Value.vnull = Value.vstr (pre ++ natStr y ++ post)) ∨
        (r2.getD (t.cols.findIdx fun c => c = fechaPublicacion) Value.vnull = Value.vnull ∧
          r2.getD t.cols.length Value.vnull = Value.vnull) := by
  constructor
  · decide
  intro t hrect hfp r2 hr2
  unfold dateDerive at hr2
  rw [if_pos hfp] at hr2
  simp only [List.mem_map] at hr2
  obtain ⟨r, hr, rfl⟩ := hr2
  have hilen : (t.cols.findIdx fun c => c = fechaPublicacion) < t.cols.length :=
    List.findIdx_lt_length_of_exists ⟨fechaPublicacion, hfp, by simp⟩
  have hrlen : r.length = t.cols.length := hrect r hr
  have hsetlen :
      (r.set (t.cols.findIdx fun c => c = fechaPublicacion)
        (toDatetimeVal (r.getD (t.cols.findIdx fun c => c = fechaPublicacion)
          Value.vnull))).length = t.cols.length := by
    rw [List.length_set, hrlen]
  have hcomp :
      ∀ l : Row, ∀ a : Value, l.length = t.cols.length →
        (l ++ [a]).getD t.cols.length Value.vnull = a := by
    intro l a hl
    rw [List.getD_eq_getElem?_getD, List.getElem?_append_right (by omega), hl]
    simp
  have hdate :
      ∀ l : Row, ∀ a : Value, l.length = t.cols.length →
        (l ++ [a]).getD (t.cols.findIdx fun c => c = fechaPublicacion) Value.vnull =
          l.getD (t.cols.findIdx fun c => c = fechaPublicacion) Value.vnull := by
    intro l a hl
    rw [List.getD_eq_getElem?_getD, List.getD_eq_getElem?_getD, List.getElem?_append,
      if_pos (show (t.cols.findIdx fun c => c = fechaPublicacion) < l.length by omega)]
  rcases toDatetimeVal_shape
      (r.getD (t.cols.findIdx fun c => c = fechaPublicacion) Value.vnull) with
    ⟨y, m, d, hc⟩ | hc
  · left
    obtain ⟨pre, post, hpre⟩ := fechaTexto_contains_year y m d
    refine ⟨y, m, d, pre, post, ?_, ?_⟩
    · rw [hdate _ _ hsetlen, List.getD_eq_getElem?_getD,
        List.getElem?_set_self (by omega), Option.getD_some]
      exact hc
    · rw [hcomp _ _ hsetlen, hc, hpre]
  · right
    constructor
    · rw [hdate _ _ hsetlen, List.getD_eq_getElem?_getD,
        List.getElem?_set_self (by omega), Option.getD_some]
      exact hc
    · rw [hcomp _ _ hsetlen, hc]
      rfl

/-- C4 witness: the derived-table row with an absent date has an absent
companion. -/
theorem date_companion_consistency_witness :
    (∃ y m d pre post,
      ([Value.vnull, Value.vnull] : Row).getD 0 Value.vnull = Value.vdate y m d ∧
      ([Value.vnull, Value.vnull] : Row).getD 1 Value.vnull =
        Value.vstr (pre ++ natStr y ++ post)) ∨
    (([Value.vnull, Value.vnull] : Row).getD 0 Value.vnull = Value.vnull ∧
      ([Value.vnull, Value.vnull] : Row).getD 1 Value.vnull = Value.vnull) :=
  date_companion_consistency.2 { cols := [fechaPublicacion], rows := [[Value.vnull]] }
    (by unfold Rect; decide) (by decide) [Value.vnull, Value.vnull] (by decide)

/-! ## C5 (amended): the normalized alphabet on benign headers -/

theorem benign_lt_256 (c : Nat) (h : benignHeaderChar c = true) : c < 256 := by
  have hacc : ∀ x ∈ accentedLatin, x < 256 := by decide
  by_cases hm : c ∈ accentedLatin
  · exact hacc c hm
  · unfold benignHeaderChar at h
    rw [decide_eq_false hm] at h
    simp only [Bool.or_eq_true, Bool.and_eq_true, decide_eq_true_eq, Bool.or_false] at h
    rcases h with h | h | h | h | h <;> omega

theorem base_lt_256 (c : Nat) (h : baseHeaderChar c = true) : c < 256 := by
  simp only [baseHeaderChar, Bool.or_eq_true, Bool.and_eq_true, decide_eq_true_eq] at h
  rcases h with h | h | h | h | h <;> omega

theorem lowerSpace_lt_256 (c : Nat) (h : lowerSpaceChar c = true) : c < 256 := by
  simp only [lowerSpaceChar, Bool.or_eq_true, Bool.and_eq_true, decide_eq_true_eq] at h
  rcases h with h | h | h | h <;> omega

set_option maxRecDepth 8000 in
theorem nfkd_of_benign :
    ∀ c : Nat, c < 256 → benignHeaderChar c = true →
      (nfkdChar c).all (fun d => combiningChar d || baseHeaderChar d) = true := by decide

set_option maxRecDepth 8000 in
theorem lower_of_base :
    ∀ c : Nat, c < 256 → baseHeaderChar c = true →
      lowerSpaceChar (lowerChar c) = true := by decide

set_option maxRecDepth 8000 in
theorem replace_of_lower :
    ∀ c : Nat, c < 256 → lowerSpaceChar c = true →
      asciiIdentChar (if c = 32 then 95 else c) = true := by decide

theorem pyStrip_subset (s : Str) : ∀ c ∈ pyStrip s, c ∈ s := by
  intro c hc
  unfold pyStrip at hc
  have h1 := List.mem_reverse.1 hc
  have h2 := List.Sublist.mem h1 (List.dropWhile_sublist _)
  have h3 := List.mem_reverse.1 h2
  exact List.Sublist.mem h3 (List.dropWhile_sublist _)

/-- C5 (amended): on raw column names drawn from ASCII letters, digits,
underscores, spaces and decomposable accented Latin letters, the normalized
name consists only of lowercase ASCII letters, digits and underscores; raw
names with other characters (punctuation, non-decomposable letters) can
carry them through unchanged. -/
theorem normalizar_columna_ascii_on_benign (nombre : Str)
    (h : nombre.all benignHeaderChar = true) :
    (normalizar_columna nombre).all asciiIdentChar = true := by
  rw [List.all_eq_true] at h ⊢
  intro c hc
  unfold normalizar_columna at hc
  obtain ⟨c1, hc1, rfl⟩ := List.mem_map.1 hc
  have hc1' := pyStrip_subset _ c1 hc1
  obtain ⟨c2, hc2, rfl⟩ := List.mem_map.1 hc1'
  have hc2' := List.mem_filter.1 hc2
  obtain ⟨c0, hc0, hc02⟩ := List.mem_flatMap.1 hc2'.1
  have hb : benignHeaderChar c0 = true := h c0 hc0
  have hall := nfkd_of_benign c0 (benign_lt_256 c0 hb) hb
  have hc2b := (List.all_eq_true.1 hall) c2 hc02
  have hc2b' : combiningChar c2 = true ∨ baseHeaderChar c2 = true := by
    simpa using hc2b
  have hbase : baseHeaderChar c2 = true := by
    rcases hc2b' with hcomb | hbase
    · rw [hcomb] at hc2'
      simp at hc2'
    · exact hbase
  have hlower := lower_of_base c2 (base_lt_256 c2 hbase) hbase
  exact replace_of_lower (lowerChar c2) (lowerSpace_lt_256 _ hlower) hlower

/-- C5 witness: the raw header `País Año` normalizes into the promised
alphabet. -/
theorem normalizar_columna_ascii_on_benign_witness :
    (strOf "País Año").all benignHeaderChar = true ∧
    (normalizar_columna (strOf "País Año")).all asciiIdentChar = true :=
  ⟨by decide, normalizar_columna_ascii_on_benign (strOf "País Año") (by decide)⟩

/-! ## C1 (amended): per-column atomicity of the encoding repair -/

theorem mapM_some_length {α β : Type} (f : α → Option β) :
    ∀ (l : List α) (l2 : List β), l.mapM f = some l2 → l2.length = l.length := by
  intro l
  induction l with
  | nil =>
    intro l2 h
    simp only [List.mapM_nil, Option.pure_def, Option.some.injEq] at h
    subst h
    rfl
  | cons a as ih =>
    intro l2 h
    cases hfa : f a with
    | none => rw [List.mapM_cons, hfa] at h; simp at h
    | some b =>
      cases has : as.mapM f with
      | none => rw [List.mapM_cons, hfa, has] at h; simp at h
      | some bs =>
        rw [List.mapM_cons, hfa, has] at h
        simp at h
        rw [← h, List.length_cons, List.length_cons, ih bs has]

theorem colOf_length (rows : List Row) (i : Nat) : (colOf rows i).length = rows.length := by
  simp [colOf]

theorem setCol_colOf_ne (i j : Nat) (h : i ≠ j) :
    ∀ (rows : List Row) (vals : List Value), vals.length = rows.length →
      colOf (setCol i vals rows) j = colOf rows j := by
  intro rows
  induction rows with
  | nil => intro vals _; simp [setCol, colOf]
  | cons r rs ih =>
    intro vals hlen
    cases vals with
    | nil => simp at hlen
    | cons v vs =>
      have hh : (r.set i v).getD j Value.vnull = r.getD j Value.vnull := by
        rw [List.getD_eq_getElem?_getD, List.getD_eq_getElem?_getD, List.getElem?_set,
          if_neg h]
      have ht := ih vs (by simpa using hlen)
      simp only [setCol, colOf, List.zip_cons_cons, List.map_cons] at ht ⊢
      rw [hh, ht]

theorem setCol_colOf_self (i : Nat) :
    ∀ (rows : List Row) (vals : List Value), vals.length = rows.length →
      (∀ r ∈ rows, i < r.length) →
      colOf (setCol i vals rows) i = vals := by
  intro rows
  induction rows with
  | nil =>
    intro vals hlen _
    rw [List.length_nil, List.length_eq_zero] at hlen
    simp [setCol, colOf, hlen]
  | cons r rs ih =>
    intro vals hlen hrow
    cases vals with
    | nil => simp at hlen
    | cons v vs =>
      have hh : (r.set i v).getD i Value.vnull = v := by
        rw [List.getD_eq_getElem?_getD,
          List.getElem?_set_self (hrow r (List.mem_cons_self r rs)), Option.getD_some]
      have ht := ih vs (by simpa using hlen)
        (fun x hx => hrow x (List.mem_cons_of_mem r hx))
      simp only [setCol, colOf, List.zip_cons_cons, List.map_cons] at ht ⊢
      rw [hh, ht]

theorem fixStep_colOf_ne (rows : List Row) (k j : Nat) (h : k ≠ j) :
    colOf (fixStep rows k) j = colOf rows j := by
  unfold fixStep
  by_cases ho : isObjectCol (colOf rows k)
  · rw [if_pos ho]
    cases hm : (colOf rows k).mapM repairValue with
    | none => simp only [hm]
    | some col2 =>
      simp only [hm]
      exact setCol_colOf_ne k j h rows col2
        (by rw [mapM_some_length repairValue _ _ hm, colOf_length])
  · rw [if_neg ho]

theorem fixStep_colOf_self (rows : List Row) (k : Nat) (hrow : ∀ r ∈ rows, k < r.length) :
    colOf (fixStep rows k) k = fixCol (colOf rows k) := by
  unfold fixStep fixCol
  by_cases ho : isObjectCol (colOf rows k)
  · rw [if_pos ho, if_pos ho]
    cases hm : (colOf rows k).mapM repairValue with
    | none => simp only [hm]
    | some col2 =>
      simp only [hm]
      exact setCol_colOf_self k rows col2
        (by rw [mapM_some_length repairValue _ _ hm, colOf_length]) hrow
  · rw [if_neg ho, if_neg ho]

theorem fixStep_rowlen (rows : List Row) (k n : Nat) (h : ∀ r ∈ rows, r.length = n) :
    ∀ r2 ∈ fixStep rows k, r2.length = n := by
  intro r2 hr2
  unfold fixStep at hr2
  by_cases ho : isObjectCol (colOf rows k)
  · rw [if_pos ho] at hr2
    cases hm : (colOf rows k).mapM repairValue with
    | none => rw [hm] at hr2; exact h r2 hr2
    | some col2 =>
      rw [hm] at hr2
      unfold setCol at hr2
      obtain ⟨p, hp, rfl⟩ := List.mem_map.1 hr2
      have hmem := List.of_mem_zip hp
      rw [List.length_set]
      exact h p.1 hmem.1
  · rw [if_neg ho] at hr2
    exact h r2 hr2

theorem foldl_fixStep_colOf (n : Nat) :
    ∀ (ks : List Nat) (rows : List Row), (∀ r ∈ rows, r.length = n) →
      (∀ k ∈ ks, k < n) → ks.Nodup → ∀ j : Nat,
      colOf (ks.foldl fixStep rows) j =
        if j ∈ ks then fixCol (colOf rows j) else colOf rows j := by
  intro ks
  induction ks with
  | nil => intro rows _ _ _ j; simp
  | cons k ks ih =>
    intro rows hlen hks hnd j
    rw [List.foldl_cons]
    have hlen2 := fixStep_rowlen rows k n hlen
    have hknotin := (List.nodup_cons.1 hnd).1
    have hnd2 := (List.nodup_cons.1 hnd).2
    have hks2 : ∀ x ∈ ks, x < n := fun x hx => hks x (List.mem_cons_of_mem k hx)
    have ihj := ih (fixStep rows k) hlen2 hks2 hnd2 j
    by_cases hjk : j = k
    · subst hjk
      rw [ihj, if_neg hknotin, if_pos (List.mem_cons_self j ks)]
      exact fixStep_colOf_self rows j
        (fun r hr => by rw [hlen r hr]; exact hks j (List.mem_cons_self j ks))
    · have hne := fixStep_colOf_ne rows k j (fun he => hjk he.symm)
      rw [ihj]
      by_cases hjin : j ∈ ks
      · rw [if_pos hjin, if_pos (List.mem_cons_of_mem k hjin), hne]
      · rw [if_neg hjin, if_neg (by simp [hjk, hjin]), hne]

/-- C1 (amended): the encoding-repair pass treats each column atomically —
every column of the repaired table is either exactly the original column
(some value failed to re-decode, or the column is not textual) or the
column with the repair lambda applied successfully to every value; no
column mixes repaired and unrepaired values, and no failure escapes. -/
theorem fixEncoding_column_atomic (t : Table) (hrect : Rect t) (i : Nat)
    (hi : i < t.cols.length) :
    colOf (fixEncoding t).rows i = colOf t.rows i ∨
      ∃ col2, (colOf t.rows i).mapM repairValue = some col2 ∧
        colOf (fixEncoding t).rows i = col2 := by
  have h := foldl_fixStep_colOf t.cols.length (List.range t.cols.length) t.rows hrect
    (fun k hk => List.mem_range.1 hk) (List.nodup_range _) i
  rw [if_pos (List.mem_range.2 hi)] at h
  have h2 : colOf (fixEncoding t).rows i = fixCol (colOf t.rows i) := h
  rw [h2]
  unfold fixCol
  by_cases ho : isObjectCol (colOf t.rows i)
  · rw [if_pos ho]
    cases hm : (colOf t.rows i).mapM repairValue with
    | none => simp [hm]
    | some col2 =>
      simp only [hm]
      right
      exact ⟨col2, rfl, rfl⟩
  · rw [if_neg ho]
    left
    rfl

/-- C1 witness: the two-value column of the counterexample table is left
exactly as it was (the atomic per-column outcome). -/
theorem fixEncoding_column_atomic_witness :
    Rect { cols := [[99]], rows := [[Value.vstr [195, 169]], [Value.vstr [255]]] } ∧
    (colOf
        (fixEncoding
          { cols := [[99]], rows := [[Value.vstr [195, 169]], [Value.vstr [255]]] }).rows 0 =
      colOf [[Value.vstr [195, 169]], [Value.vstr [255]]] 0 ∨
    ∃ col2,
      (colOf [[Value.vstr [195, 169]], [Value.vstr [255]]] 0).mapM repairValue = some col2 ∧
      colOf
        (fixEncoding
          { cols := [[99]], rows := [[Value.vstr [195, 169]], [Value.vstr [255]]] }).rows 0 =
        col2) :=
  ⟨by unfold Rect; decide,
   fixEncoding_column_atomic
     { cols := [[99]], rows := [[Value.vstr [195, 169]], [Value.vstr [255]]] }
     (by unfold Rect; decide) 0 (by decide)⟩

/-! ## C10: row order and first occurrences through the pipeline -/

theorem setCol_length (i : Nat) (vals : List Value) (rows : List Row)
    (hlen : vals.length = rows.length) : (setCol i vals rows).length = rows.length := by
  simp [setCol, List.length_zip, hlen]

theorem fixStep_length (rows : List Row) (k : Nat) :
    (fixStep rows k).length = rows.length := by
  unfold fixStep
  by_cases ho : isObjectCol (colOf rows k)
  · rw [if_pos ho]
    cases hm : (colOf rows k).mapM repairValue with
    | none => simp only [hm]
    | some col2 =>
      simp only [hm]
      exact setCol_length k col2 rows
        (by rw [mapM_some_length repairValue _ _ hm, colOf_length])
  · rw [if_neg ho]

theorem foldl_fixStep_length (ks : List Nat) :
    ∀ rows : List Row, (ks.foldl fixStep rows).length = rows.length := by
  induction ks with
  | nil => intro rows; rfl
  | cons k ks ih =>
    intro rows
    rw [List.foldl_cons, ih (fixStep rows k), fixStep_length]

theorem dateDerive_rows_map (u : Table) :
    ∃ g : Row → Row, (dateDerive u).rows = u.rows.map g := by
  unfold dateDerive
  by_cases hfp : fechaPublicacion ∈ u.cols
  · rw [if_pos hfp]
    exact ⟨_, rfl⟩
  · rw [if_neg hfp]
    exact ⟨id, (List.map_id _).symm⟩

theorem limpiar_rows_map (t : Table) :
    ∃ f : Row → Row, (limpiar_datos t).rows = (prunedRows t).map f := by
  obtain ⟨g, hg⟩ :=
    dateDerive_rows_map (renameCols { cols := t.cols, rows := replaceTable (prunedRows t) })
  refine ⟨fun r => g (r.map replaceSentinel), ?_⟩
  have h1 : (limpiar_datos t).rows =
      (replaceTable (prunedRows t)).map g := hg
  rw [h1]
  unfold replaceTable
  rw [List.map_map]
  rfl

theorem dedupAux_eq_filter_range {α : Type} [DecidableEq α] [Inhabited α] :
    ∀ (l : List α) (seen : List α),
      dedupAux seen l =
        ((List.range l.length).filter
          (fun i => decide (l.getD i default ∉ seen ∧ l.getD i default ∉ l.take i))).map
          (fun i => l.getD i default) := by
  intro l
  induction l with
  | nil => intro seen; simp [dedupAux]
  | cons x xs ih =>
    intro seen
    rw [List.length_cons, List.range_succ_eq_map, List.filter_cons, List.filter_map]
    by_cases hx : x ∈ seen
    · rw [if_neg (by simp [hx]), List.map_map]
      have hstep : dedupAux seen (x :: xs) = dedupAux seen xs := by
        simp [dedupAux, hx]
      rw [hstep, ih seen]
      rw [List.filter_congr (p := fun i =>
            decide (xs.getD i default ∉ seen ∧ xs.getD i default ∉ xs.take i)) ?hfc]
      case hfc =>
        intro i _
        show _ = decide ((x :: xs).getD (i + 1) default ∉ seen ∧
          (x :: xs).getD (i + 1) default ∉ (x :: xs).take (i + 1))
        rw [List.getD_cons_succ, List.take_succ_cons]
        apply decide_eq_decide.mpr
        constructor
        · rintro ⟨h1, h2⟩
          refine ⟨h1, ?_⟩
          rw [List.mem_cons, not_or]
          exact ⟨fun he => h1 (he ▸ hx), h2⟩
        · rintro ⟨h1, h2⟩
          rw [List.mem_cons, not_or] at h2
          exact ⟨h1, h2.2⟩
      apply List.map_congr_left
      intro a _
      exact (@List.getD_cons_succ _ x xs a default).symm
    · rw [if_pos (by simp [hx]), List.map_cons, List.map_map, List.getD_cons_zero]
      have hstep : dedupAux seen (x :: xs) = x :: dedupAux (x :: seen) xs := by
        simp [dedupAux, hx]
      rw [hstep, ih (x :: seen)]
      congr 1
      rw [List.filter_congr (p := fun i =>
            decide (xs.getD i default ∉ x :: seen ∧ xs.getD i default ∉ xs.take i)) ?hfc2]
      case hfc2 =>
        intro i _
        show _ = decide ((x :: xs).getD (i + 1) default ∉ seen ∧
          (x :: xs).getD (i + 1) default ∉ (x :: xs).take (i + 1))
        rw [List.getD_cons_succ, List.take_succ_cons]
        apply decide_eq_decide.mpr
        constructor
        · rintro ⟨h1, h2⟩
          rw [List.mem_cons, not_or] at h1
          refine ⟨h1.2, ?_⟩
          rw [List.mem_cons, not_or]
          exact ⟨h1.1, h2⟩
        · rintro ⟨h1, h2⟩
          rw [List.mem_cons, not_or] at h2
          refine ⟨?_, h2.2⟩
          rw [List.mem_cons, not_or]
          exact ⟨h2.1, h1⟩
      apply List.map_congr_left
      intro a _
      exact (@List.getD_cons_succ _ x xs a default).symm

/-- C10: the cleaning pipeline preserves row order — the encoding repair
keeps the row count (it edits rows in place), the pruned rows form a sublist
(same relative order) of the repaired rows, the final rows are a positional
map of the pruned rows, and deduplication keeps exactly the indices whose
row value has no earlier occurrence (the first occurrence of each duplicated
row, in original order). -/
theorem clean_preserves_row_order_first_occurrence (t : Table) :
    (fixEncoding t).rows.length = t.rows.length ∧
    (prunedRows t).Sublist (dropnaAll (fixEncoding t).rows) ∧
    (dropnaAll (fixEncoding t).rows).Sublist (fixEncoding t).rows ∧
    (∃ f : Row → Row, (limpiar_datos t).rows = (prunedRows t).map f) ∧
    prunedRows t =
      ((List.range (dropnaAll (fixEncoding t).rows).length).filter
        (fun i => decide ((dropnaAll (fixEncoding t).rows).getD i default ∉
          (dropnaAll (fixEncoding t).rows).take i))).map
        (fun i => (dropnaAll (fixEncoding t).rows).getD i default) := by
  refine ⟨?_, ?_, ?_, limpiar_rows_map t, ?_⟩
  · exact foldl_fixStep_length (List.range t.cols.length) t.rows
  · exact dedupAux_sublist [] (dropnaAll (fixEncoding t).rows)
  · exact List.filter_sublist _
  · have h := dedupAux_eq_filter_range (dropnaAll (fixEncoding t).rows) []
    rw [show prunedRows t = dedupAux [] (dropnaAll (fixEncoding t).rows) from rfl, h]
    congr 1
    apply List.filter_congr
    intro i _
    apply decide_eq_decide.mpr
    constructor
    · rintro ⟨_, h2⟩
      exact h2
    · intro h2
      exact ⟨by simp, h2⟩

end ETL
